import Mathlib

/-!
Shallow embedding of `src/YoutubeDownloader.py` (YTIVsDownloader).

Python integers are modelled over `Nat`.  The progress percentage
`min(100, int((downloaded / total) * 100))` is evaluated by Python in
IEEE-754 binary64 floating point, which does NOT always agree with the
exact floor `min 100 (downloaded * 100 / total)` — e.g. at
`downloaded = 29, total = 100` the floats give 28, the exact floor 29.
`pyPercentage` below models the float computation bit-faithfully
(correctly rounded division and multiplication, round-to-nearest
ties-to-even, truncation toward zero); `progress_hook_fl` is the hook
with that percentage, while `progress_hook` keeps the exact-rational
idealization for the trace-level claims whose properties do not depend
on the last bit of the percentage.  Python strings are modelled by
`String` / `List Char`; dictionary fields that may be missing are
`Option` fields and `dict.get(k, d)` is `Option.getD`.
-/

/-! ## Substring matching (Python `sub in s`) -/

/-- Model of Python sequence containment check at the start:
`startsWithChars p l` is true when `p` is an initial segment of `l`. -/
def startsWithChars : List Char → List Char → Bool
  | [], _ => true
  | _ :: _, [] => false
  | a :: as, b :: bs => a = b && startsWithChars as bs

/-- Model of Python `p in l` for character sequences: `p` occurs
contiguously somewhere in `l` (the empty pattern always occurs). -/
def containsChars (p : List Char) : List Char → Bool
  | [] => p.isEmpty
  | b :: bs => startsWithChars p (b :: bs) || containsChars p bs

/-- Model of Python `pat in s` on strings. -/
def strContains (s pat : String) : Bool :=
  containsChars pat.toList s.toList

/-- Model of the Python slice `s[:-1]`: drop the last character. -/
def sliceDropLast (s : String) : String :=
  String.mk s.toList.dropLast

/-! ## `VideoDownloaderThread._get_format_option`

The Python method walks an insertion-ordered dict
`{"youtube.com": ..., "instagram.com": ..., "vimeo.com": ..., "facebook.com": ...}`
and returns the first rule whose key is a substring of `self.url`,
defaulting to `"best[ext=mp4]"`. -/

def get_format_option (url quality : String) : String :=
  if strContains url "youtube.com" then
    if quality = "Best Available" then
      "bestvideo[ext=mp4]+bestaudio[ext=m4a]/best[ext=mp4]"
    else
      "bestvideo[height<=" ++ sliceDropLast quality ++
        "][ext=mp4]+bestaudio[ext=m4a]/best[height<=" ++ sliceDropLast quality ++
        "][ext=mp4]"
  else if strContains url "instagram.com" then
    "best[ext=mp4]"
  else if strContains url "vimeo.com" then
    "best[ext=mp4]"
  else if strContains url "facebook.com" then
    "best[ext=mp4]"
  else
    "best[ext=mp4]"

/-! ## `VideoDownloaderThread._progress_hook` -/

/-- One callback tick from the delegated library.  The fields mirror the
dictionary keys the hook reads; `none` models an absent (or `None`) key. -/
structure ProgressTick where
  status : String
  downloaded_bytes : Option Nat
  total_bytes : Option Nat
  total_bytes_estimate : Option Nat
  speed : Option Nat
deriving DecidableEq

/-- Events emitted through the thread's Qt signals. -/
inductive Event where
  | progress (pct : Nat)
  | rate (speed : Nat)
  | finished (msg : String)
  | error (msg : String)
deriving DecidableEq

/-- `d.get('total_bytes_estimate', d.get('total_bytes', 0))`. -/
def resolvedTotal (d : ProgressTick) : Nat :=
  d.total_bytes_estimate.getD (d.total_bytes.getD 0)

/-- The body of `_progress_hook`, as the list of events one tick emits,
with the percentage read as the exact rational idealization
`min 100 (downloaded * 100 / total)`.  This idealization is used only for
the trace-level properties (emission order, range, monotonicity) that are
insensitive to the last bit of the percentage; the source actually
computes the percentage in binary64 floating point, modelled
bit-faithfully by `pyPercentage` / `progress_hook_fl` below, and the two
differ on some inputs (e.g. `downloaded = 29, total = 100`: 28 vs 29). -/
def progress_hook (d : ProgressTick) : List Event :=
  if d.status = "downloading" then
    let downloaded := d.downloaded_bytes.getD 0
    let total := resolvedTotal d
    (if 0 < total then [Event.progress (min 100 (downloaded * 100 / total))] else [])
      ++ (if 0 < d.speed.getD 0 then [Event.rate (d.speed.getD 0)] else [])
  else []

/-- All events produced by a sequence of callback ticks, in order. -/
def runTicks (ticks : List ProgressTick) : List Event :=
  ticks.flatMap progress_hook

/-- Percentages of the progress events of a trace, in emission order. -/
def progressPcts (evs : List Event) : List Nat :=
  evs.filterMap fun e =>
    match e with
    | Event.progress p => some p
    | _ => none

/-- Speeds of the rate events of a trace, in emission order. -/
def rateVals (evs : List Event) : List Nat :=
  evs.filterMap fun e =>
    match e with
    | Event.rate s => some s
    | _ => none

/-! ## Bit-faithful binary64 model of the percentage expression

The source computes `min(100, int((downloaded / total) * 100))` over
IEEE-754 binary64 doubles.  The model below performs the same three
rounding steps with exact integer arithmetic: correctly rounded division
(round to nearest, ties to even, 53-bit significand), correctly rounded
multiplication by 100, then truncation toward zero.  The exponent range
is unbounded, so the model agrees with binary64 for every quotient in
the normal range (roughly `2 ^ (-1022)` to `2 ^ 1024`), which covers all
byte counts; it is meaningful for `0 < total`, the only case the hook
uses it in. -/

/-- Structural (fuel-based) `⌊log2 n⌋`, so that concrete values reduce
inside the kernel. -/
def log2Fuel : Nat → Nat → Nat
  | 0, _ => 0
  | fuel + 1, n => if 2 ≤ n then log2Fuel fuel (n / 2) + 1 else 0

/-- `⌊log2 n⌋` for `1 ≤ n` (and `0` at `0`). -/
def natLog2 (n : Nat) : Nat := log2Fuel n n

/-- Round the value `m0 + r / D` (with `r < D`) to an integer, round to
nearest, ties to even. -/
def roundHalfEven (m0 r D : Nat) : Nat :=
  if 2 * r < D then m0
  else if D < 2 * r then m0 + 1
  else if m0 % 2 = 0 then m0 else m0 + 1

/-- `⌊log2 (n / d)⌋` for positive naturals `n`, `d`. -/
def floorLog2Quot (n d : Nat) : Int :=
  let a := natLog2 n
  let b := natLog2 d
  if d * 2 ^ a ≤ n * 2 ^ b then (a : Int) - b else (a : Int) - b - 1

/-- Correctly rounded binary64 quotient `n / d` (for `0 < n`, `0 < d`) as
a significand-exponent pair `(m, e)`: the value is `m * 2 ^ (e - 52)`
with `2 ^ 52 ≤ m ≤ 2 ^ 53`. -/
def divDouble (n d : Nat) : Nat × Int :=
  let e := floorLog2Quot n d
  let k := 52 - e
  let N := n * 2 ^ k.toNat
  let D := d * 2 ^ (-k).toNat
  (roundHalfEven (N / D) (N % D) D, e)

/-- `int((n / d) * 100)` as Python evaluates it: binary64 division, then
binary64 multiplication by 100 (re-rounding the 53-bit-significand
product), then truncation toward zero. -/
def pyTruncTimes100 (n d : Nat) : Nat :=
  if n = 0 then 0 else
  let p := divDouble n d
  let M := p.1 * 100
  let shift := natLog2 M - 52
  let m2 := roundHalfEven (M / 2 ^ shift) (M % 2 ^ shift) (2 ^ shift)
  let E : Int := p.2 + (natLog2 M : Int) - 104
  if 0 ≤ E then m2 * 2 ^ E.toNat else m2 / 2 ^ (-E).toNat

/-- The percentage the source emits:
`min(100, int((downloaded / total) * 100))` in binary64 arithmetic. -/
def pyPercentage (downloaded total : Nat) : Nat :=
  min 100 (pyTruncTimes100 downloaded total)

/-- The body of `_progress_hook` with the percentage computed exactly as
the Python float expression computes it. -/
def progress_hook_fl (d : ProgressTick) : List Event :=
  if d.status = "downloading" then
    (if 0 < resolvedTotal d
     then [Event.progress (pyPercentage (d.downloaded_bytes.getD 0) (resolvedTotal d))]
     else [])
      ++ (if 0 < d.speed.getD 0 then [Event.rate (d.speed.getD 0)] else [])
  else []

/-! ## `VideoDownloaderThread.run` -/

/-- Outcome of the delegated `ydl.download([url])` call: either it returns
normally or it raises an exception with message `msg`. -/
inductive DownloadResult where
  | ok : DownloadResult
  | exn (msg : String) : DownloadResult
deriving DecidableEq

def successMessage : String := "Video downloaded and converted successfully."

/-- The event trace of `VideoDownloaderThread.run`: the progress/rate
events of the callback ticks that fired, followed by exactly one terminal
signal — `finished_signal` with the fixed success message, or
`error_signal` with `f"Download error: {str(e)}"`. -/
def run (ticks : List ProgressTick) (result : DownloadResult) : List Event :=
  runTicks ticks ++
    [match result with
     | DownloadResult.ok => Event.finished successMessage
     | DownloadResult.exn m => Event.error ("Download error: " ++ m)]

/-- Terminal events are the `finished_signal` / `error_signal` emissions. -/
def isTerminal : Event → Bool
  | Event.finished _ => true
  | Event.error _ => true
  | _ => false

/-- Messages of the error events of a trace. -/
def errorMsgs (evs : List Event) : List String :=
  evs.filterMap fun e =>
    match e with
    | Event.error m => some m
    | _ => none

/-! ## `VideoMetadataExtractor.extract_video_info` -/

/-- The loosely-typed dictionary returned by `ydl.extract_info`; `none`
models a missing key. -/
structure InfoDict where
  title : Option String
  uploader : Option String
  duration : Option Nat
  view_count : Option Nat
  formats : Option (List String)
  thumbnail : Option String
deriving DecidableEq

/-- The fixed metadata record built on success. -/
structure VideoInfo where
  title : String
  uploader : String
  duration : Nat
  view_count : Nat
  formats : List String
  thumbnail : String
deriving DecidableEq

/-- `extract_video_info` returns either the metadata dict or
`{'error': str(e)}`. -/
inductive ExtractResult where
  | ok (info : VideoInfo)
  | fetchError (msg : String)
deriving DecidableEq

/-- Model of `VideoMetadataExtractor.extract_video_info`.  Its input is
the outcome of the delegated `ydl.extract_info(url, download=False)` call:
either the raw info dict, or an exception with message `m`.  The `try`
block maps the dict through `.get` with the documented defaults; the
`except` clause returns `{'error': str(e)}`. -/
def extract_video_info (res : Except String InfoDict) : ExtractResult :=
  match res with
  | Except.error m => ExtractResult.fetchError m
  | Except.ok d =>
      ExtractResult.ok
        { title := d.title.getD "Unknown Title"
          uploader := d.uploader.getD "Unknown Uploader"
          duration := d.duration.getD 0
          view_count := d.view_count.getD 0
          formats := d.formats.getD []
          thumbnail := d.thumbnail.getD "" }

/-! ## Recent-URL history
(`VideoDownloaderApp._add_to_recent_urls` / `_load_recent_urls`)

The persisted file is modelled as `Option String` (`none` = the file does
not exist, so reading raises `FileNotFoundError`).  Line splitting and
`str.strip()` are modelled over `List Char`. -/

/-- Python `str.isspace` members that `strip()` removes, restricted to the
ASCII whitespace characters. -/
def pyIsSpace (c : Char) : Bool :=
  c = ' ' || c = '\t' || c = '\n' || c = '\r' || c = '\u000B' || c = '\u000C'

/-- Model of Python `line.strip()` on a character sequence. -/
def trimChars (l : List Char) : List Char :=
  ((l.dropWhile pyIsSpace).reverse.dropWhile pyIsSpace).reverse

/-- Split a character sequence at every newline.  Together with the
trailing strip in `trimChars` this models `f.readlines()` followed by
`line.strip()`. -/
def splitLines : List Char → List (List Char)
  | [] => [[]]
  | c :: cs =>
    if c = '\n' then [] :: splitLines cs
    else
      match splitLines cs with
      | [] => [[c]]
      | l :: ls => (c :: l) :: ls

/-- Model of `'\n'.join(lines)`. -/
def joinLines : List (List Char) → List Char
  | [] => []
  | [l] => l
  | l :: ls => l ++ '\n' :: joinLines ls

/-- The file content `_add_to_recent_urls` writes:
`f.write('\n'.join(recent_urls))`. -/
def serialize (urls : List String) : String :=
  String.mk (joinLines (urls.map String.toList))

/-- The body of `_load_recent_urls` on an existing file:
`[line.strip() for line in f.readlines() if line.strip()]`. -/
def parseHistory (content : String) : List String :=
  (((splitLines content.toList).map trimChars).filter (fun l => l ≠ [])).map String.mk

/-- Model of `VideoDownloaderApp._load_recent_urls`: a missing file
(`FileNotFoundError`) yields `[]`. -/
def load_recent_urls : Option String → List String
  | none => []
  | some content => parseHistory content

/-- The in-memory list update of `VideoDownloaderApp._add_to_recent_urls`:
`if url not in recent_urls: recent_urls.insert(0, url); recent_urls = recent_urls[:10]`.
When `url` is already present the method body is skipped entirely. -/
def add_to_recent_urls (url : String) (recent : List String) : List String :=
  if url ∈ recent then recent else (url :: recent).take 10

/-- The file-level effect of `_add_to_recent_urls`: it first reloads the
list from the file, and rewrites the file only when `url` was not already
present. -/
def record (url : String) (file : Option String) : Option String :=
  let recent := load_recent_urls file
  if url ∈ recent then file
  else some (serialize ((url :: recent).take 10))

/-- A URL string that survives the strip/split round trip: non-empty, no
surrounding whitespace, no embedded newline. -/
def cleanEntry (s : String) : Prop :=
  s.toList ≠ [] ∧ trimChars s.toList = s.toList ∧ '\n' ∉ s.toList

instance (s : String) : Decidable (cleanEntry s) := by
  unfold cleanEntry; infer_instance

/-! ## Auxiliary predicates for the progress claims -/

/-- A sequence of numbers is monotonically non-decreasing from each
element to the next. -/
def nonDecreasing : List Nat → Bool
  | [] => true
  | [_] => true
  | a :: b :: l => decide (a ≤ b) && nonDecreasing (b :: l)

lemma nonDecreasing_map_of (f : Nat → Nat) (hf : ∀ a b, a ≤ b → f a ≤ f b) :
    ∀ l : List Nat, nonDecreasing l = true → nonDecreasing (l.map f) = true
  | [], _ => rfl
  | [_], _ => rfl
  | a :: b :: l, h => by
      simp only [nonDecreasing, List.map_cons, Bool.and_eq_true, decide_eq_true_eq] at h ⊢
      exact ⟨hf a b h.1, nonDecreasing_map_of f hf (b :: l) h.2⟩

/-- Concrete tick used to instantiate hypotheses of the C1 theorem. -/
def tickC1 : ProgressTick :=
  { status := "downloading", downloaded_bytes := some 50, total_bytes := some 200
    total_bytes_estimate := none, speed := some 5 }

/-! # Theorems for the claims -/

lemma format_default_of_not_youtube (url quality : String)
    (h : strContains url "youtube.com" = false) :
    get_format_option url quality = "best[ext=mp4]" := by
  simp [get_format_option, h]

/-- Tick at `downloaded_bytes = 29`, `total_bytes = 100`, on which the
float-computed percentage differs from the exact floor. -/
def tick29 : ProgressTick :=
  { status := "downloading", downloaded_bytes := some 29, total_bytes := some 100
    total_bytes_estimate := none, speed := none }

/-- Claim C1 fails on the code: the percentage is computed in binary64
floating point, and at `downloaded = 29, total = 100` the hook emits 28
(`29 / 100` rounds to the double just below `0.29`, and the product to
`28.999999999999996`) while the claim's formula
`floor(100 * 29 / 100)` clamped to `[0,100]` gives 29. -/
theorem C1_counterexample :
    tick29.status = "downloading" ∧
    tick29.downloaded_bytes.getD 0 = 29 ∧ resolvedTotal tick29 = 100 ∧
    progressPcts (progress_hook_fl tick29) = [28] ∧
    min 100 (29 * 100 / 100) = 29 ∧ (28 : Nat) ≠ min 100 (29 * 100 / 100) :=
  ⟨rfl, rfl, rfl, by decide, by decide, by decide⟩

/-- Claim C1 (amended): on a callback tick with status `'downloading'`, a
progress event is emitted iff the resolved total size is positive — none
fires when the total is `0` or absent — and its percentage is
`min(100, int((downloaded / total) * 100))` as binary64 arithmetic
evaluates it (which can fall below the exact clamped floor, e.g. 28
instead of 29 at `29 / 100`); the emitted percentage is at most 100, and
the rate event is decided independently, by the `speed` field alone. -/
theorem C1_amended (d : ProgressTick) (h : d.status = "downloading") :
    progressPcts (progress_hook_fl d) =
      (if 0 < resolvedTotal d
       then [pyPercentage (d.downloaded_bytes.getD 0) (resolvedTotal d)]
       else []) ∧
    (∀ p ∈ progressPcts (progress_hook_fl d), p ≤ 100) ∧
    rateVals (progress_hook_fl d) =
      (if 0 < d.speed.getD 0 then [d.speed.getD 0] else []) := by
  have hp : progressPcts (progress_hook_fl d) =
      (if 0 < resolvedTotal d
       then [pyPercentage (d.downloaded_bytes.getD 0) (resolvedTotal d)]
       else []) := by
    by_cases ht : 0 < resolvedTotal d <;> by_cases hs : 0 < d.speed.getD 0 <;>
      simp [progress_hook_fl, h, ht, hs, progressPcts]
  have hr : rateVals (progress_hook_fl d) =
      (if 0 < d.speed.getD 0 then [d.speed.getD 0] else []) := by
    by_cases ht : 0 < resolvedTotal d <;> by_cases hs : 0 < d.speed.getD 0 <;>
      simp [progress_hook_fl, h, ht, hs, rateVals]
  refine ⟨hp, ?_, hr⟩
  intro p hmem
  rw [hp] at hmem
  by_cases ht : 0 < resolvedTotal d
  · rw [if_pos ht] at hmem
    rw [List.mem_singleton.mp hmem]
    exact min_le_left 100 _
  · rw [if_neg ht] at hmem
    exact absurd hmem (List.not_mem_nil p)

/-- Witness for the amended C1 at a concrete tick. -/
theorem C1_amended_witness :
    progressPcts (progress_hook_fl tickC1) =
      (if 0 < resolvedTotal tickC1
       then [pyPercentage (tickC1.downloaded_bytes.getD 0) (resolvedTotal tickC1)]
       else []) ∧
    (∀ p ∈ progressPcts (progress_hook_fl tickC1), p ≤ 100) ∧
    rateVals (progress_hook_fl tickC1) =
      (if 0 < tickC1.speed.getD 0 then [tickC1.speed.getD 0] else []) :=
  C1_amended tickC1 rfl

/-- Claim C4 fails on the code: a URL containing `"youtu.be"` but not
`"youtube.com"` is NOT given the YouTube rule — `_get_format_option` has
no `"youtu.be"` key, so the generic default `"best[ext=mp4]"` is returned
instead of the height-limited spec. -/
theorem C4_counterexample :
    strContains "https://youtu.be/abc" "youtu.be" = true ∧
    get_format_option "https://youtu.be/abc" "720p" = "best[ext=mp4]" ∧
    get_format_option "https://youtu.be/abc" "720p" ≠
      "bestvideo[height<=720][ext=mp4]+bestaudio[ext=m4a]/best[height<=720][ext=mp4]" :=
  ⟨by decide, by decide, by decide⟩

/-- Claim C4 (amended): the YouTube rule applies only to URLs containing
`"youtube.com"`; a URL containing `"youtu.be"` but not `"youtube.com"`
receives the generic default `"best[ext=mp4]"` for every quality. -/
theorem C4_amended (url quality : String)
    (_hbe : strContains url "youtu.be" = true)
    (h : strContains url "youtube.com" = false) :
    get_format_option url quality = "best[ext=mp4]" :=
  format_default_of_not_youtube url quality h

/-- Witness for the amended C4. -/
theorem C4_amended_witness :
    get_format_option "https://youtu.be/abc" "720p" = "best[ext=mp4]" :=
  C4_amended "https://youtu.be/abc" "720p" (by decide) (by decide)

/-- Claim C5 fails on the code: a malformed quality label is not treated
as Best Available — `quality[:-1]` simply drops the last character and the
remainder is embedded as a bogus height bound. -/
theorem C5_counterexample :
    get_format_option "https://youtube.com/watch" "garbage" =
      "bestvideo[height<=garbag][ext=mp4]+bestaudio[ext=m4a]/best[height<=garbag][ext=mp4]" ∧
    get_format_option "https://youtube.com/watch" "garbage" ≠
      get_format_option "https://youtube.com/watch" "Best Available" :=
  ⟨by decide, by decide⟩

/-- Claim C5 (amended): `select_format` is total (this model returns a
string for every input, as the Python slice and formatting never throw),
but it does not fail closed: for any quality other than
`"Best Available"` on a YouTube URL, the label minus its last character
is embedded verbatim as the height bound. -/
theorem C5_amended (url quality : String)
    (h : strContains url "youtube.com" = true)
    (hq : quality ≠ "Best Available") :
    get_format_option url quality =
      "bestvideo[height<=" ++ sliceDropLast quality ++
        "][ext=mp4]+bestaudio[ext=m4a]/best[height<=" ++ sliceDropLast quality ++
        "][ext=mp4]" := by
  simp [get_format_option, h, hq]

/-- Witness for the amended C5. -/
theorem C5_amended_witness :
    get_format_option "https://youtube.com/watch" "garbage" =
      "bestvideo[height<=" ++ sliceDropLast "garbage" ++
        "][ext=mp4]+bestaudio[ext=m4a]/best[height<=" ++ sliceDropLast "garbage" ++
        "][ext=mp4]" :=
  C5_amended "https://youtube.com/watch" "garbage" (by decide) (by decide)

/-- Claim C6 fails on the code: the platform dict is checked in insertion
order with `"youtube.com"` first, so a URL containing both
`"youtube.com"` and `"instagram.com"` gets the YouTube rule, not the
fixed `"best[ext=mp4]"` spec. -/
theorem C6_counterexample :
    strContains "https://youtube.com/?next=instagram.com" "instagram.com" = true ∧
    get_format_option "https://youtube.com/?next=instagram.com" "Best Available" ≠
      "best[ext=mp4]" :=
  ⟨by decide, by decide⟩

/-- Claim C6 (amended): for every URL containing `"instagram.com"`,
`"vimeo.com"` or `"facebook.com"` and NOT containing `"youtube.com"`,
`select_format` returns the fixed `"best[ext=mp4]"` spec for every
quality. -/
theorem C6_amended (url quality : String)
    (_hplat : strContains url "instagram.com" = true ∨
      strContains url "vimeo.com" = true ∨ strContains url "facebook.com" = true)
    (h : strContains url "youtube.com" = false) :
    get_format_option url quality = "best[ext=mp4]" :=
  format_default_of_not_youtube url quality h

/-- Witness for the amended C6. -/
theorem C6_amended_witness :
    get_format_option "https://vimeo.com/12345" "720p" = "best[ext=mp4]" :=
  C6_amended "https://vimeo.com/12345" "720p" (Or.inr (Or.inl (by decide))) (by decide)

/-- Claim C7: `extract_video_info` never lets an exception escape — an
exception with message `m` from the delegated extraction yields the error
record carrying `m` verbatim — and a successful extraction yields the
fixed metadata record with the documented defaults for missing fields. -/
theorem C7_fetch_verbatim :
    (∀ m, extract_video_info (Except.error m) = ExtractResult.fetchError m) ∧
    (∀ d, extract_video_info (Except.ok d) =
      ExtractResult.ok
        { title := d.title.getD "Unknown Title"
          uploader := d.uploader.getD "Unknown Uploader"
          duration := d.duration.getD 0
          view_count := d.view_count.getD 0
          formats := d.formats.getD []
          thumbnail := d.thumbnail.getD "" }) :=
  ⟨fun _ => rfl, fun _ => rfl⟩

/-! ### C2: progress percentages over a tick sequence -/

lemma runTicks_cons (t : ProgressTick) (ts : List ProgressTick) :
    runTicks (t :: ts) = progress_hook t ++ runTicks ts := by
  simp [runTicks]

lemma progressPcts_append (l1 l2 : List Event) :
    progressPcts (l1 ++ l2) = progressPcts l1 ++ progressPcts l2 := by
  simp [progressPcts]

lemma progress_hook_pcts_le (d : ProgressTick) :
    ∀ p ∈ progressPcts (progress_hook d), p ≤ 100 := by
  intro p hp
  by_cases h : d.status = "downloading"
  · by_cases ht : 0 < resolvedTotal d <;> by_cases hs : 0 < d.speed.getD 0 <;>
      simp [progress_hook, h, ht, hs, progressPcts] at hp <;>
      exact hp ▸ min_le_left 100 _
  · simp [progress_hook, h, progressPcts] at hp

lemma runTicks_pcts_le :
    ∀ ticks : List ProgressTick, ∀ p ∈ progressPcts (runTicks ticks), p ≤ 100
  | [] => by simp [runTicks, progressPcts]
  | t :: ts => by
      intro p hp
      rw [runTicks_cons, progressPcts_append] at hp
      rcases List.mem_append.mp hp with h | h
      · exact progress_hook_pcts_le t p h
      · exact runTicks_pcts_le ts p h

/-- When every tick is a `'downloading'` tick with the same positive
resolved total `T`, the emitted percentages are exactly the per-tick
clamped ratios, in order. -/
lemma pcts_of_uniform (T : Nat) (hT : 0 < T) :
    ∀ ticks : List ProgressTick, (∀ t ∈ ticks, t.status = "downloading") →
      (∀ t ∈ ticks, resolvedTotal t = T) →
      progressPcts (runTicks ticks)
        = ticks.map fun t => min 100 (t.downloaded_bytes.getD 0 * 100 / T)
  | [], _, _ => by simp [runTicks, progressPcts]
  | t :: ts, hs, ht => by
      have h1 := hs t (List.mem_cons_self t ts)
      have h2 := ht t (List.mem_cons_self t ts)
      have ih := pcts_of_uniform T hT ts
        (fun x hx => hs x (List.mem_cons_of_mem t hx))
        (fun x hx => ht x (List.mem_cons_of_mem t hx))
      rw [runTicks_cons, progressPcts_append, ih]
      by_cases hsp : 0 < t.speed.getD 0 <;>
        simp [progress_hook, h1, h2, hT, hsp, progressPcts]

/-- Concrete in-domain tick sequence on which the emitted percentages
decrease: `downloaded_bytes` goes 50 → 10 with a fixed total of 100. -/
def ticksC2 : List ProgressTick :=
  [{ status := "downloading", downloaded_bytes := some 50, total_bytes := some 100
     total_bytes_estimate := none, speed := none },
   { status := "downloading", downloaded_bytes := some 10, total_bytes := some 100
     total_bytes_estimate := none, speed := none }]

/-- Claim C2 fails on the code: the hook is stateless, so a synthetic
tick sequence whose `downloaded_bytes` decreases (every tick having
`total_bytes > 0`) yields a strictly decreasing emission sequence. -/
theorem C2_counterexample :
    (∀ t ∈ ticksC2, t.status = "downloading" ∧ 0 < t.total_bytes.getD 0) ∧
    progressPcts (runTicks ticksC2) = [50, 10] ∧
    nonDecreasing (progressPcts (runTicks ticksC2)) = false := by
  refine ⟨by decide, by decide, by decide⟩

/-- Claim C2 (amended): every emitted percentage lies in `[0,100]` for
any synthetic tick sequence; the emission sequence is monotonically
non-decreasing provided the ticks themselves are well-formed — all
`'downloading'` with one fixed positive total and non-decreasing
`downloaded_bytes`, as a real download produces. -/
theorem C2_amended :
    (∀ ticks : List ProgressTick, ∀ p ∈ progressPcts (runTicks ticks), 0 ≤ p ∧ p ≤ 100) ∧
    (∀ (ticks : List ProgressTick) (T : Nat), 0 < T →
      (∀ t ∈ ticks, t.status = "downloading") →
      (∀ t ∈ ticks, resolvedTotal t = T) →
      nonDecreasing (ticks.map fun t => t.downloaded_bytes.getD 0) = true →
      nonDecreasing (progressPcts (runTicks ticks)) = true) := by
  constructor
  · intro ticks p hp
    exact ⟨Nat.zero_le p, runTicks_pcts_le ticks p hp⟩
  · intro ticks T hT hstat htot hmono
    rw [pcts_of_uniform T hT ticks hstat htot]
    have hmap : (ticks.map fun t => min 100 (t.downloaded_bytes.getD 0 * 100 / T))
        = (ticks.map fun t => t.downloaded_bytes.getD 0).map
            (fun x => min 100 (x * 100 / T)) := by
      rw [List.map_map]; rfl
    rw [hmap]
    refine nonDecreasing_map_of _ (fun a b hab => ?_) _ hmono
    exact min_le_min le_rfl (Nat.div_le_div_right (mul_le_mul_right' hab 100))

/-- Concrete well-formed tick sequence for the C2 witness. -/
def ticksC2w : List ProgressTick :=
  [{ status := "downloading", downloaded_bytes := some 10, total_bytes := some 100
     total_bytes_estimate := none, speed := none },
   { status := "downloading", downloaded_bytes := some 60, total_bytes := some 100
     total_bytes_estimate := none, speed := none }]

/-- Witness for the amended C2. -/
theorem C2_amended_witness :
    (∀ p ∈ progressPcts (runTicks ticksC2w), 0 ≤ p ∧ p ≤ 100) ∧
    nonDecreasing (progressPcts (runTicks ticksC2w)) = true :=
  ⟨fun p hp => C2_amended.1 ticksC2w p hp,
   C2_amended.2 ticksC2w 100 (by decide) (by decide) (by decide) (by decide)⟩

/-! ### C3: terminal outcome of `run` -/

lemma progress_hook_no_terminal (d : ProgressTick) :
    ∀ e ∈ progress_hook d, isTerminal e = false := by
  intro e he
  by_cases h : d.status = "downloading"
  · by_cases ht : 0 < resolvedTotal d
    · by_cases hs : 0 < d.speed.getD 0
      · simp [progress_hook, h, ht, hs] at he
        rcases he with rfl | rfl <;> rfl
      · simp [progress_hook, h, ht, hs] at he
        subst he; rfl
    · by_cases hs : 0 < d.speed.getD 0
      · simp [progress_hook, h, ht, hs] at he
        subst he; rfl
      · simp [progress_hook, h, ht, hs] at he
  · simp [progress_hook, h] at he

lemma runTicks_no_terminal :
    ∀ ticks : List ProgressTick, ∀ e ∈ runTicks ticks, isTerminal e = false
  | [] => by simp [runTicks]
  | t :: ts => by
      intro e he
      rw [runTicks_cons] at he
      rcases List.mem_append.mp he with h | h
      · exact progress_hook_no_terminal t e h
      · exact runTicks_no_terminal ts e h

/-- Claim C3 fails on the code: when the delegated download raises with
message `m`, the emitted failure message is `"Download error: " ++ m`,
which is not `m` verbatim. -/
theorem C3_counterexample :
    errorMsgs (run [] (DownloadResult.exn "boom")) = ["Download error: boom"] ∧
    ("Download error: boom" : String) ≠ "boom" :=
  ⟨rfl, by decide⟩

/-- Claim C3 (amended): exactly one terminal event fires per job; on an
exception with message `m` it is the failure message
`"Download error: " ++ m` (the exception text copied verbatim after the
fixed prefix, with no classification), otherwise the fixed success
message; and every progress/rate event fires strictly before it. -/
theorem C3_amended (ticks : List ProgressTick) (result : DownloadResult) :
    (run ticks result).countP isTerminal = 1 ∧
    (∀ e ∈ (run ticks result).dropLast, isTerminal e = false) ∧
    (run ticks result).getLast? =
      some (match result with
            | DownloadResult.ok => Event.finished successMessage
            | DownloadResult.exn m => Event.error ("Download error: " ++ m)) := by
  refine ⟨?_, ?_, ?_⟩
  · unfold run
    rw [List.countP_append]
    have h0 : (runTicks ticks).countP isTerminal = 0 :=
      List.countP_eq_zero.mpr fun e he => by simp [runTicks_no_terminal ticks e he]
    rw [h0]
    cases result <;> rfl
  · intro e he
    unfold run at he
    rw [List.dropLast_concat] at he
    exact runTicks_no_terminal ticks e he
  · unfold run
    rw [List.getLast?_concat]

/-! ### History round-trip lemmas -/

lemma mk_toList (s : String) : String.mk s.toList = s := rfl

lemma toList_mk (l : List Char) : (String.mk l).toList = l := rfl

lemma splitLines_no_newline :
    ∀ l : List Char, '\n' ∉ l → splitLines l = [l]
  | [], _ => rfl
  | c :: cs, h => by
      have hc : ¬ c = '\n' := fun hc => h (hc ▸ List.mem_cons_self c cs)
      have ih := splitLines_no_newline cs fun hm => h (List.mem_cons_of_mem c hm)
      simp [splitLines, hc, ih]

lemma splitLines_append :
    ∀ l r : List Char, '\n' ∉ l → splitLines (l ++ '\n' :: r) = l :: splitLines r
  | [], _, _ => by simp [splitLines]
  | c :: cs, r, h => by
      have hc : ¬ c = '\n' := fun hc => h (hc ▸ List.mem_cons_self c cs)
      have ih := splitLines_append cs r fun hm => h (List.mem_cons_of_mem c hm)
      simp [splitLines, hc, ih]

lemma joinLines_cons_cons (l m : List Char) (L : List (List Char)) :
    joinLines (l :: m :: L) = l ++ '\n' :: joinLines (m :: L) := rfl

lemma splitLines_joinLines :
    ∀ L : List (List Char), (∀ l ∈ L, '\n' ∉ l) → L ≠ [] →
      splitLines (joinLines L) = L
  | [], _, hne => absurd rfl hne
  | [l], h, _ => by
      have := splitLines_no_newline l (h l (List.mem_cons_self l []))
      simpa [joinLines]
  | l :: m :: L, h, _ => by
      have h1 : '\n' ∉ l := h l (List.mem_cons_self _ _)
      have ih := splitLines_joinLines (m :: L)
        (fun x hx => h x (List.mem_cons_of_mem l hx)) (by simp)
      rw [joinLines_cons_cons, splitLines_append l _ h1, ih]

lemma map_trim_filter_mk :
    ∀ L : List String, (∀ s ∈ L, cleanEntry s) →
      ((((L.map String.toList).map trimChars).filter fun l => l ≠ []).map String.mk) = L
  | [], _ => rfl
  | s :: L, h => by
      have hs := h s (List.mem_cons_self _ _)
      have ih := map_trim_filter_mk L fun x hx => h x (List.mem_cons_of_mem s hx)
      simp only [List.map_cons, hs.2.1, List.filter_cons]
      rw [if_pos (by simpa using hs.1)]
      simp only [List.map_cons, mk_toList]
      rw [ih]

/-- Writing a list of clean entries with `'\n'.join` and reading it back
with `readlines` / `strip` / blank-line filtering reproduces the list. -/
lemma parse_serialize (L : List String) (h : ∀ s ∈ L, cleanEntry s) :
    parseHistory (serialize L) = L := by
  cases L with
  | nil => rfl
  | cons s L' =>
      unfold parseHistory serialize
      rw [toList_mk, splitLines_joinLines ((s :: L').map String.toList)
        (by
          intro l hl
          rcases List.mem_map.mp hl with ⟨x, hx, rfl⟩
          exact (h x hx).2.2)
        (by simp)]
      exact map_trim_filter_mk (s :: L') h

/-! ### C8, C9, C10: recent-URL history -/

/-- Claim C8 fails on the code: recording a URL that is already present
at a non-front position leaves the list unchanged — `_add_to_recent_urls`
skips its whole body when `url in recent_urls`, so the URL is NOT moved
to the front. -/
theorem C8_counterexample :
    (("b" : String) ∈ ["a", "b"]) ∧
    add_to_recent_urls "b" ["a", "b"] = ["a", "b"] ∧
    (add_to_recent_urls "b" ["a", "b"]).head? ≠ some "b" :=
  ⟨by decide, by decide, by decide⟩

/-- Claim C8 (amended): after `record(u)` the list has `u` as its first
element when `u` was not already present; when `u` is already present
anywhere in the list, the list is left entirely unchanged (so `u` keeps
its old position). -/
theorem C8_amended (url : String) (recent : List String) :
    (url ∉ recent → (add_to_recent_urls url recent).head? = some url) ∧
    (url ∈ recent → add_to_recent_urls url recent = recent) := by
  constructor
  · intro h
    unfold add_to_recent_urls
    rw [if_neg h]
    rfl
  · intro h
    unfold add_to_recent_urls
    rw [if_pos h]

/-- Witness for the amended C8. -/
theorem C8_amended_witness :
    (("c" : String) ∉ ["a", "b"]) ∧
    (add_to_recent_urls "c" ["a", "b"]).head? = some "c" :=
  ⟨by decide, (C8_amended "c" ["a", "b"]).1 (by decide)⟩

/-- Claim C9: recording preserves the history invariant (no duplicates,
length at most 10), recording an 11th distinct URL drops the
least-recently-used entry, and reading back a file written by `record`
returns the recorded list (so the sequence returned by `load` satisfies
the same invariant). -/
theorem C9_history_invariant (url : String) (recent : List String)
    (hnd : recent.Nodup) (hlen : recent.length ≤ 10)
    (hclean : ∀ s ∈ add_to_recent_urls url recent, cleanEntry s) :
    ((add_to_recent_urls url recent).Nodup ∧
      (add_to_recent_urls url recent).length ≤ 10) ∧
    (recent.length = 10 → url ∉ recent →
      add_to_recent_urls url recent = url :: recent.dropLast) ∧
    load_recent_urls (some (serialize (add_to_recent_urls url recent))) =
      add_to_recent_urls url recent := by
  refine ⟨⟨?_, ?_⟩, ?_, ?_⟩
  · unfold add_to_recent_urls
    by_cases h : url ∈ recent
    · rw [if_pos h]; exact hnd
    · rw [if_neg h]
      exact List.Nodup.sublist (List.take_sublist 10 _)
        (List.nodup_cons.mpr ⟨h, hnd⟩)
  · unfold add_to_recent_urls
    by_cases h : url ∈ recent
    · rw [if_pos h]; exact hlen
    · rw [if_neg h, List.length_take]
      exact min_le_left _ _
  · intro h10 hni
    unfold add_to_recent_urls
    rw [if_neg hni, List.dropLast_eq_take, h10]
    rfl
  · exact parse_serialize _ hclean

/-- Concrete ten-entry history for the C9 witness. -/
def recentC9 : List String :=
  ["u0", "u1", "u2", "u3", "u4", "u5", "u6", "u7", "u8", "u9"]

/-- Witness for C9, exercising the 10-item cap with an 11th distinct URL. -/
theorem C9_history_invariant_witness :
    ((add_to_recent_urls "x" recentC9).Nodup ∧
      (add_to_recent_urls "x" recentC9).length ≤ 10) ∧
    (recentC9.length = 10 → "x" ∉ recentC9 →
      add_to_recent_urls "x" recentC9 = "x" :: recentC9.dropLast) ∧
    load_recent_urls (some (serialize (add_to_recent_urls "x" recentC9))) =
      add_to_recent_urls "x" recentC9 :=
  C9_history_invariant "x" recentC9 (by decide) (by decide) (by decide)

/-- Claim C10: when the URL is already anywhere in the loaded history,
`_add_to_recent_urls` is a complete no-op — the file is returned as-is
(not rewritten), the loaded list is unchanged, and an immediate repeat
of the same record is idempotent. -/
theorem C10_record_noop (url : String) (file : Option String)
    (h : url ∈ load_recent_urls file) :
    record url file = file ∧
    load_recent_urls (record url file) = load_recent_urls file ∧
    record url (record url file) = record url file := by
  have h1 : record url file = file := by
    unfold record
    simp [h]
  refine ⟨h1, by rw [h1], ?_⟩
  rw [h1]
  exact h1

/-- Witness for C10 at a concrete two-line history file. -/
theorem C10_record_noop_witness :
    record "b" (some "a\nb") = some "a\nb" ∧
    load_recent_urls (record "b" (some "a\nb")) = load_recent_urls (some "a\nb") ∧
    record "b" (record "b" (some "a\nb")) = record "b" (some "a\nb") :=
  C10_record_noop "b" (some "a\nb") (by decide)
